import Mathlib

/-!
# Cakelisp: file utilities, build cache gates and the command line

A shallow embedding of `src/FileUtilities.cpp`, `src/Main.cpp` and the
declarations of `src/Build.hpp`.

Conventions of the embedding.

* A C string is the list of the characters that precede its terminating NUL.
  Reading the character at index `i` of a C string gives NUL at `i = length`.
* A destination buffer `char* bufferOut` is represented by the string it holds
  once the function has returned; a function that fills a buffer returns that
  string.
* Calls into the operating system (`stat`, `realpath`, `CreateFile`, ...) read a
  state of the world the program does not own.  Each function that makes such
  calls takes the answers of the operating system as an argument.
* Where the source has `#ifdef UNIX ... #elif WINDOWS`, the two branches are
  two definitions, in the namespaces `UNIX` and `WINDOWS`.
-/

namespace Cakelisp

/-- The contents of a C string, terminator excluded. -/
abbrev CStr := List Char

/-- The character `s[i]` of a C string: NUL at the terminator. -/
def charAt (s : CStr) (i : Nat) : Char := s.getD i (Char.ofNat 0)

/-- Modelled from the spec: the `SafeSnprinf` macro lives in `Utilities.hpp`,
which is not among the sources.  The spec (sections 7 and 9) asks of every
write into a fixed-capacity destination that it is capacity-checked and
truncates: of the formatted text only what fits beside the terminator, that is
`size - 1` characters, reaches the buffer. -/
def SafeSnprinf (size : Nat) (formatted : CStr) : CStr :=
  formatted.take (size - 1)

/-- The function `strcat(dest, src)` of the C library: `src` is copied behind the
end of the string in `dest`, whatever the capacity of `dest`. -/
def strcat (dest src : CStr) : CStr := dest ++ src

/-- The function `strncmp(a, b, n)` of the C library: the difference of the first
pair of differing characters among the first `n`, zero if there is none;
the comparison stops at a terminator. -/
def strncmp : CStr → CStr → Nat → Int
  | _, _, 0 => 0
  | [], [], _ + 1 => 0
  | [], b :: _, _ + 1 => 0 - (b.toNat : Int)
  | a :: _, [], _ + 1 => (a.toNat : Int)
  | a :: as, b :: bs, n + 1 =>
    if a = b then strncmp as bs n else (a.toNat : Int) - (b.toNat : Int)

namespace UNIX

/-- The function `basename` of `<libgen.h>` (POSIX): an empty path gives `"."`, a
path of slashes only gives `"/"`, otherwise trailing slashes are removed and
what follows the last remaining slash is returned. -/
def basename (path : CStr) : CStr :=
  if path = [] then ['.']
  else
    let stripped := path.rdropWhile (fun c => c == '/')
    if stripped = [] then ['/']
    else stripped.rtakeWhile (fun c => c != '/')

/-- The function `dirname` of `<libgen.h>` (POSIX, as glibc implements it): an
empty path and a path without a slash give `"."`, a path of slashes only gives
`"/"`, otherwise the trailing slashes, the last component and the slashes before
it are removed, and `"/"` is returned if nothing is left.  Where POSIX leaves the
choice to the implementation, glibc keeps exactly two leading slashes: `"//"`
and `"//a"` give `"//"`. -/
def dirname (path : CStr) : CStr :=
  if path = [] then ['.']
  else
    let stripped := path.rdropWhile (fun c => c == '/')
    if stripped = [] then (if path = ['/', '/'] then ['/', '/'] else ['/'])
    else if '/' ∉ stripped then ['.']
    else
      let upToSlash := stripped.rdropWhile (fun c => c != '/')
      let parent := upToSlash.rdropWhile (fun c => c == '/')
      if parent = [] then (if upToSlash = ['/', '/'] then ['/', '/'] else ['/']) else parent

/-- The UNIX branch of `getDirectoryFromPath`. -/
def getDirectoryFromPath (path : CStr) (bufferSize : Nat) : CStr :=
  SafeSnprinf bufferSize (dirname path)

/-- The UNIX branch of `getFilenameFromPath`. -/
def getFilenameFromPath (path : CStr) (bufferSize : Nat) : CStr :=
  SafeSnprinf bufferSize (basename path)

end UNIX

/-- The function `makePathRelativeToFile`, over the platform's
`getDirectoryFromPath`: the directory of `filePath` is written with the capacity
check, then `"/"` and `referencedFilePath` are appended with `strcat`. -/
def makePathRelativeToFile (getDirectoryFromPath : CStr → Nat → CStr)
    (filePath referencedFilePath : CStr) (bufferSize : Nat) : CStr :=
  let bufferOut := getDirectoryFromPath filePath bufferSize
  let bufferOut := strcat bufferOut ['/']
  strcat bufferOut referencedFilePath

/-- The function `outputFilenameFromSourceFilename`, over the platform's
`getFilenameFromPath` and the constant `MAX_NAME_LENGTH` (declared in a header
that is not among the sources).  The result is the returned flag and the
contents of `bufferOut`; `bufferOut` is left as it was (`bufferIn`) when the
function returns false. `addExtension` is `none` for a null pointer. -/
def outputFilenameFromSourceFilename (getFilenameFromPath : CStr → Nat → CStr)
    (MAX_NAME_LENGTH : Nat) (outputDir sourceFilename : CStr)
    (addExtension : Option CStr) (bufferIn : CStr) (bufferSize : Nat) : Bool × CStr :=
  let buildFilename := getFilenameFromPath sourceFilename MAX_NAME_LENGTH
  if charAt buildFilename 0 = Char.ofNat 0 then (false, bufferIn)
  else
    match addExtension with
    | none => (true, SafeSnprinf bufferSize (outputDir ++ ['/'] ++ buildFilename))
    | some ext =>
      (true, SafeSnprinf bufferSize (outputDir ++ ['/'] ++ buildFilename ++ ['.'] ++ ext))

namespace UNIX

/-- The UNIX branch of `makeAbsoluteOrRelativeToWorkingDir`: the string left in
`bufferOut`. -/
def makeAbsoluteOrRelativeToWorkingDir (realpath : CStr → Option CStr)
    (filePath : CStr) (bufferSize : Nat) : CStr :=
  if charAt filePath 0 = '/' ∨ (charAt filePath 0 = '.' ∧ charAt filePath 1 = Char.ofNat 0) ∨
      (charAt filePath 0 = '.' ∧ charAt filePath 1 = '/' ∧ charAt filePath 2 = Char.ofNat 0) then
    SafeSnprinf bufferSize filePath
  else
    match realpath ['.'] with
    | none => SafeSnprinf bufferSize filePath
    | some workingDirAbsolute =>
      match realpath filePath with
      | none => SafeSnprinf bufferSize filePath
      | some filePathAbsolute =>
        let workingDirPathLength := workingDirAbsolute.length
        if strncmp workingDirAbsolute filePathAbsolute workingDirPathLength = 0 then
          let trimTrailingSlash :=
            if charAt filePathAbsolute workingDirPathLength = '/' then 1 else 0
          SafeSnprinf bufferSize (filePathAbsolute.drop (workingDirPathLength + trimTrailingSlash))
        else
          SafeSnprinf bufferSize filePathAbsolute

/-- The UNIX branch of `fileIsMoreRecentlyModified`.  `stat path` is the
`st_mtime` that `stat` stores for the path, `none` when `stat` returns -1. -/
def fileIsMoreRecentlyModified (stat : CStr → Option Int) (filename reference : CStr) : Bool :=
  match stat filename with
  | none => true
  | some fileStat_st_mtime =>
    match stat reference with
    | none => true
    | some referenceStat_st_mtime => decide (fileStat_st_mtime > referenceStat_st_mtime)

end UNIX

namespace WINDOWS

/-- The four parts `_splitpath_s` stores for a path. -/
structure SplitPath where
  drive : CStr
  dir : CStr
  fname : CStr
  ext : CStr

/-- A Windows `FILETIME`: the two 32-bit halves of a 64-bit count. -/
structure FILETIME where
  dwLowDateTime : Nat
  dwHighDateTime : Nat

/-- The 64-bit value of a `FILETIME`. -/
def FILETIME.quad (t : FILETIME) : Nat :=
  (t.dwHighDateTime % 2 ^ 32) * 2 ^ 32 + t.dwLowDateTime % 2 ^ 32

/-- The function `CompareFileTime` of the Windows API: -1, 0 or 1 as the first
time is earlier than, equal to or later than the second. -/
def CompareFileTime (a b : FILETIME) : Int :=
  if a.quad < b.quad then -1 else if a.quad = b.quad then 0 else 1

/-- The answers of Windows and of its C runtime to the calls the WINDOWS
branches make. -/
structure System where
  /-- The handle `CreateFile` opens for a path; `none` for `INVALID_HANDLE_VALUE`. -/
  CreateFile : CStr → Option Nat
  /-- The last-write time `GetFileTime` stores for a handle; `none` when it fails. -/
  GetFileTime : Nat → Option FILETIME
  /-- The string `GetCurrentDirectory` stores in a buffer of the given size;
  `none` when it stores nothing. -/
  GetCurrentDirectory : Nat → Option CStr
  /-- The string `_fullpath` stores for a path in a buffer of the given size;
  `none` when it returns a null pointer. -/
  fullpath : CStr → Nat → Option CStr
  /-- The parts `_splitpath_s` stores for a path. -/
  splitpath : CStr → SplitPath
  /-- The string `_makepath_s` stores in a buffer of the given size. -/
  makepath : Nat → SplitPath → CStr

/-- The WINDOWS branch of `makeAbsolutePath_Allocated`; `fromDirectory` is `none`
for a null pointer, the result `none` for a null pointer.  `PrintfBuffer` is
`SafeSnprinf` with the size of the array `relativePath`. -/
def makeAbsolutePath_Allocated (os : System) (MAX_PATH_LENGTH : Nat)
    (fromDirectory : Option CStr) (filePath : CStr) : Option CStr :=
  match fromDirectory with
  | some dir =>
    os.fullpath (SafeSnprinf MAX_PATH_LENGTH (dir ++ ['/'] ++ filePath)) MAX_PATH_LENGTH
  | none => os.fullpath filePath MAX_PATH_LENGTH

/-- The WINDOWS branch of `makeAbsoluteOrRelativeToWorkingDir`.  The array
`workingDirAbsolute` starts zeroed and the result of `GetCurrentDirectory` is
not looked at, so a call that stores nothing leaves the empty string. -/
def makeAbsoluteOrRelativeToWorkingDir (os : System) (MAX_PATH_LENGTH : Nat)
    (filePath : CStr) (bufferSize : Nat) : CStr :=
  let parts := os.splitpath filePath
  if charAt parts.drive 0 ≠ Char.ofNat 0 then
    os.makepath bufferSize parts
  else
    let workingDirAbsolute := (os.GetCurrentDirectory MAX_PATH_LENGTH).getD []
    match makeAbsolutePath_Allocated os MAX_PATH_LENGTH none filePath with
    | none => SafeSnprinf bufferSize filePath
    | some filePathAbsolute =>
      let workingDirPathLength := workingDirAbsolute.length
      if strncmp workingDirAbsolute filePathAbsolute workingDirPathLength = 0 then
        let trimTrailingSlash :=
          if charAt filePathAbsolute workingDirPathLength = '/' ∨
              charAt filePathAbsolute workingDirPathLength = '\\' then 1 else 0
        SafeSnprinf bufferSize (filePathAbsolute.drop (workingDirPathLength + trimTrailingSlash))
      else
        SafeSnprinf bufferSize filePathAbsolute

/-- The WINDOWS branch of `fileIsMoreRecentlyModified`.  Both calls of
`GetFileTime` are made on `hFile`, as in the source. -/
def fileIsMoreRecentlyModified (os : System) (filename reference : CStr) : Bool :=
  let hFile := os.CreateFile filename
  let hReference := os.CreateFile reference
  match hFile, hReference with
  | some hFile, some _ =>
    match os.GetFileTime hFile with
    | none => true
    | some ftWrite =>
      match os.GetFileTime hFile with
      | none => true
      | some ftWriteRef => decide (CompareFileTime ftWrite ftWriteRef ≥ 1)
  | _, _ => false

end WINDOWS

/-- The flags a command line option can switch on: the two locals of `main` and
the fields of the logging settings. -/
inductive Toggle
  | ignoreCachedFiles
  | enableHotReloading
  | tokenization
  | references
  | dependencyPropagation
  | buildReasons
  | buildProcess
  | compileTimeBuildObjects
  | processes
  | fileSystem
  | fileSearch
  | metadata
  deriving DecidableEq

/-- The struct `CommandLineOption`, without the help text (read by `printHelp`
only). -/
structure CommandLineOption where
  handle : CStr
  toggleOnOut : Toggle

/-- The table `options` of `main`. -/
def options : List CommandLineOption :=
  [ ⟨"--ignore-cache".toList, Toggle.ignoreCachedFiles⟩,
    ⟨"--enable-hot-reloading".toList, Toggle.enableHotReloading⟩,
    ⟨"--verbose-tokenization".toList, Toggle.tokenization⟩,
    ⟨"--verbose-references".toList, Toggle.references⟩,
    ⟨"--verbose-dependency-propagation".toList, Toggle.dependencyPropagation⟩,
    ⟨"--verbose-build-reasons".toList, Toggle.buildReasons⟩,
    ⟨"--verbose-build-process".toList, Toggle.buildProcess⟩,
    ⟨"--verbose-compile-time-build-objects".toList, Toggle.compileTimeBuildObjects⟩,
    ⟨"--verbose-processes".toList, Toggle.processes⟩,
    ⟨"--verbose-file-system".toList, Toggle.fileSystem⟩,
    ⟨"--verbose-file-search".toList, Toggle.fileSearch⟩,
    ⟨"--verbose-metadata".toList, Toggle.metadata⟩ ]

/-- The inner loop of `main` over the option table: the flag of the first
option whose handle equals the argument (`strcmp(...) == 0`), `none` when
`foundOption` stays false. -/
def findOption (argument : CStr) : List CommandLineOption → Option Toggle
  | [] => none
  | option :: rest =>
    if argument = option.handle then some option.toggleOnOut else findOption argument rest

/-- The argument loop of `main` from index `i` on, `remaining` being
`arguments[i..]`.  The state is `startFiles` and the flags; the result is the
exit code when the loop returns from `main`, the final state otherwise. -/
def argumentLoop (numArguments : Nat) :
    Nat → List CStr → Nat → (Toggle → Bool) → Except Nat (Nat × (Toggle → Bool))
  | _, [], startFiles, toggles => Except.ok (startFiles, toggles)
  | i, argument :: remaining, startFiles, toggles =>
    if argument = "-h".toList ∨ argument = "--help".toList then Except.error 1
    else if charAt argument 0 ≠ '-' then
      argumentLoop numArguments (i + 1) remaining
        (if startFiles = numArguments then i else startFiles) toggles
    else if startFiles < numArguments then Except.error 1
    else
      match findOption argument options with
      | some toggle =>
        argumentLoop numArguments (i + 1) remaining startFiles (Function.update toggles toggle true)
      | none => Except.error 1

/-- The fields of `moduleManager.environment` that `main` writes. -/
structure EvaluatorEnvironment where
  enableHotReloading : Bool
  useCachedFiles : Bool
  deriving DecidableEq

/-- The flags as `main` finds them: its two locals start false, the logging
settings are the global `log`. -/
def initialToggles (log : Toggle → Bool) : Toggle → Bool :=
  fun toggle =>
    match toggle with
    | Toggle.ignoreCachedFiles => false
    | Toggle.enableHotReloading => false
    | other => log other

/-- Lines 71 to 131 of `main`: the checks and the argument loop that come before
the module manager exists.  The result is the exit code `main` returns with, or
the flags and `filesToEvaluate`. -/
def parseArguments (log : Toggle → Bool) (arguments : List CStr) :
    Except Nat ((Toggle → Bool) × List CStr) :=
  let numArguments := arguments.length
  if numArguments = 1 then Except.error 1
  else
    match argumentLoop numArguments 1 (arguments.drop 1) numArguments (initialToggles log) with
    | Except.error code => Except.error code
    | Except.ok (startFiles, toggles) =>
      let filesToEvaluate := arguments.drop startFiles
      if filesToEvaluate = [] then Except.error 1
      else Except.ok (toggles, filesToEvaluate)

/-- The block "Set options after initialization" of `main`, applied to the
environment `moduleManagerInitialize` has set up. -/
def setOptionsAfterInitialization (toggles : Toggle → Bool)
    (environment : EvaluatorEnvironment) : EvaluatorEnvironment :=
  let environment :=
    if toggles Toggle.enableHotReloading then { environment with enableHotReloading := true }
    else environment
  if toggles Toggle.ignoreCachedFiles then { environment with useCachedFiles := false }
  else environment

/-- The function `main`.  `initialized` is the environment of the module manager
after `moduleManagerInitialize`; `evaluateAndBuild` stands for lines 150 to 182,
the calls into the module manager that evaluate the files and build, and gives
the exit code they end with.  The result is the exit code of the process. -/
def main (log : Toggle → Bool) (initialized : EvaluatorEnvironment)
    (evaluateAndBuild : EvaluatorEnvironment → List CStr → Nat) (arguments : List CStr) : Nat :=
  match parseArguments log arguments with
  | Except.error code => code
  | Except.ok (toggles, filesToEvaluate) =>
    evaluateAndBuild (setOptionsAfterInitialization toggles initialized) filesToEvaluate

/-- The options of a command line, in the words of the usage text
`cakelisp [options] <input .cake files>`: the arguments behind the program name,
up to the first that does not begin with `-`. -/
def optionArguments (arguments : List CStr) : List CStr :=
  (arguments.drop 1).takeWhile (fun argument => decide (charAt argument 0 = '-'))

/-! ## Concrete states of the world used by the evaluations below -/

namespace Example

/-- A working directory `/home/user/proj` beside a sibling directory
`/home/user/project2` that holds `file`. -/
def siblingRealpath (path : CStr) : Option CStr :=
  if path = ".".toList ∨ path = "./".toList then some "/home/user/proj".toList
  else if path = "../project2/file".toList then some "/home/user/project2/file".toList
  else if path = "src/Main.cake".toList then some "/home/user/proj/src/Main.cake".toList
  else none

/-- A Windows machine on which `missing.o` cannot be opened and `foo.cpp` can. -/
def missingArtifact : WINDOWS.System where
  CreateFile := fun path => if path = "foo.cpp".toList then some 1 else none
  GetFileTime := fun handle => if handle = 1 then some ⟨100, 0⟩ else none
  GetCurrentDirectory := fun _ => some "C:\\proj".toList
  fullpath := fun _ _ => none
  splitpath := fun _ => ⟨[], [], [], []⟩
  makepath := fun _ _ => []

/-- A Windows machine on which `foo.cpp` and `foo.o` both open, the last-write
time of `foo.cpp` can be read and that of `foo.o` cannot. -/
def unreadableArtifactTime : WINDOWS.System where
  CreateFile := fun path =>
    if path = "foo.cpp".toList then some 1 else if path = "foo.o".toList then some 2 else none
  GetFileTime := fun handle => if handle = 1 then some ⟨100, 0⟩ else none
  GetCurrentDirectory := fun _ => some "C:\\proj".toList
  fullpath := fun _ _ => none
  splitpath := fun _ => ⟨[], [], [], []⟩
  makepath := fun _ _ => []

/-- Modification times: `foo.cpp` and `foo.o` both at 5, `bar.cpp` at 7. -/
def equalTimes (path : CStr) : Option Int :=
  if path = "foo.cpp".toList then some 5
  else if path = "foo.o".toList then some 5
  else if path = "bar.cpp".toList then some 7
  else none

/-- A Windows machine whose working directory is too long for the buffer, so
that `GetCurrentDirectory` stores nothing, while `..\..\foo.cake` resolves to
the short path `C:\w\foo.cake`. -/
def unreadableWorkingDir : WINDOWS.System where
  CreateFile := fun _ => none
  GetFileTime := fun _ => none
  GetCurrentDirectory := fun _ => none
  fullpath := fun path _ =>
    if path = "..\\..\\foo.cake".toList then some "C:\\w\\foo.cake".toList else none
  splitpath := fun path =>
    if path = "..\\..\\foo.cake".toList then
      ⟨[], "..\\..\\".toList, "foo".toList, ".cake".toList⟩
    else ⟨[], [], [], []⟩
  makepath := fun _ parts => parts.drive ++ parts.dir ++ parts.fname ++ parts.ext

/-- A Windows machine on which `foo.cpp` and `foo.o` both open and both
last-write times can be read: `foo.cpp` at 200, `foo.o` at 100. -/
def newerSource : WINDOWS.System where
  CreateFile := fun path =>
    if path = "foo.cpp".toList then some 1 else if path = "foo.o".toList then some 2 else none
  GetFileTime := fun handle =>
    if handle = 1 then some ⟨200, 0⟩ else if handle = 2 then some ⟨100, 0⟩ else none
  GetCurrentDirectory := fun _ => some "C:\\proj".toList
  fullpath := fun _ _ => none
  splitpath := fun _ => ⟨[], [], [], []⟩
  makepath := fun _ _ => []

/-- The same two files as `stat` sees them: `foo.cpp` at 200, `foo.o` at 100. -/
def newerSourceStat (path : CStr) : Option Int :=
  if path = "foo.cpp".toList then some 200
  else if path = "foo.o".toList then some 100
  else none

end Example

/-! ## Theorems -/

/-- C1 (the code at the failing input): in the UNIX branch `basename` never
gives an empty name, so with room for one character (`MAX_NAME_LENGTH` at least
2) `outputFilenameFromSourceFilename` returns true for the empty source filename
and for `"/"`, and writes a name made of `outputDir/.` and of `outputDir//`. -/
theorem outputFilename_unix_empty_source_succeeds (MAX_NAME_LENGTH : Nat) (outputDir : CStr)
    (addExtension : Option CStr) (bufferIn : CStr) (bufferSize : Nat)
    (h : 2 ≤ MAX_NAME_LENGTH) :
    outputFilenameFromSourceFilename UNIX.getFilenameFromPath MAX_NAME_LENGTH outputDir []
        addExtension bufferIn bufferSize
      = (true, SafeSnprinf bufferSize
          (match addExtension with
            | none => outputDir ++ ['/'] ++ ['.']
            | some ext => outputDir ++ ['/'] ++ ['.'] ++ ['.'] ++ ext)) ∧
    outputFilenameFromSourceFilename UNIX.getFilenameFromPath MAX_NAME_LENGTH outputDir ['/']
        addExtension bufferIn bufferSize
      = (true, SafeSnprinf bufferSize
          (match addExtension with
            | none => outputDir ++ ['/'] ++ ['/']
            | some ext => outputDir ++ ['/'] ++ ['/'] ++ ['.'] ++ ext)) := by
  obtain ⟨k, rfl⟩ : ∃ k, MAX_NAME_LENGTH = k + 2 := ⟨MAX_NAME_LENGTH - 2, by omega⟩
  constructor <;> cases addExtension <;>
    simp [outputFilenameFromSourceFilename, UNIX.getFilenameFromPath, UNIX.basename,
      SafeSnprinf, charAt, List.rdropWhile]

/-- C1, at a concrete input: `MAX_NAME_LENGTH = 64`, output directory `cache`,
extension `o`: the names written are `cache/..o` and `cache//.o`. -/
theorem outputFilename_unix_empty_source_succeeds_witness :
    outputFilenameFromSourceFilename UNIX.getFilenameFromPath 64 "cache".toList []
        (some "o".toList) [] 100
      = (true, SafeSnprinf 100
          (match some "o".toList with
            | none => "cache".toList ++ ['/'] ++ ['.']
            | some ext => "cache".toList ++ ['/'] ++ ['.'] ++ ['.'] ++ ext)) ∧
    outputFilenameFromSourceFilename UNIX.getFilenameFromPath 64 "cache".toList ['/']
        (some "o".toList) [] 100
      = (true, SafeSnprinf 100
          (match some "o".toList with
            | none => "cache".toList ++ ['/'] ++ ['/']
            | some ext => "cache".toList ++ ['/'] ++ ['/'] ++ ['.'] ++ ext)) :=
  outputFilename_unix_empty_source_succeeds 64 "cache".toList (some "o".toList) [] 100
    (by decide)

/-- C2 (the code at the failing input): with working directory `/home/user/proj`,
the path `../project2/file` resolves to `/home/user/project2/file`, which is
neither the working directory nor below it, and
`makeAbsoluteOrRelativeToWorkingDir` writes `ect2/file`, not the absolute
form. -/
theorem makeAbsoluteOrRelative_sibling_directory :
    Example.siblingRealpath ".".toList = some "/home/user/proj".toList ∧
    Example.siblingRealpath "../project2/file".toList = some "/home/user/project2/file".toList ∧
    "/home/user/project2/file".toList ≠ "/home/user/proj".toList ∧
    ¬ ("/home/user/proj".toList ++ ['/']) <+: "/home/user/project2/file".toList ∧
    UNIX.makeAbsoluteOrRelativeToWorkingDir Example.siblingRealpath "../project2/file".toList 4096
      = "ect2/file".toList := by
  decide

/-- C3 (the code at the failing input): `makePathRelativeToFile` appends with
`strcat`, so whenever `referencedFilePath` alone fills the buffer the string it
leaves is longer than the `bufferSize - 1` characters the buffer holds. -/
theorem makePathRelativeToFile_exceeds_capacity (getDirectoryFromPath : CStr → Nat → CStr)
    (filePath referencedFilePath : CStr) (bufferSize : Nat)
    (h : bufferSize - 1 ≤ referencedFilePath.length) :
    bufferSize - 1 <
      (makePathRelativeToFile getDirectoryFromPath filePath referencedFilePath bufferSize).length := by
  simp only [makePathRelativeToFile, strcat, List.length_append, List.length_cons,
    List.length_nil]
  omega

/-- C3, at a concrete input: a buffer of 4 bytes, `filePath = "a/b"`,
`referencedFilePath = "cccc"`; the string left is `a/cccc`. -/
theorem makePathRelativeToFile_exceeds_capacity_witness :
    4 - 1 < (makePathRelativeToFile UNIX.getDirectoryFromPath "a/b".toList "cccc".toList 4).length :=
  makePathRelativeToFile_exceeds_capacity UNIX.getDirectoryFromPath "a/b".toList "cccc".toList 4
    (by decide)

/-- C4 (the code at the failing input): in the WINDOWS branch
`fileIsMoreRecentlyModified` returns false when either file cannot be opened,
and also when both open and only the last-write time of `reference` cannot be
read (both reads are made on the handle of `filename`). -/
theorem windows_unopened_file_is_not_more_recent (os : WINDOWS.System) (filename reference : CStr)
    (h : os.CreateFile filename = none ∨ os.CreateFile reference = none ∨
      ∃ hFile hReference ftWrite, os.CreateFile filename = some hFile ∧
        os.CreateFile reference = some hReference ∧
        os.GetFileTime hFile = some ftWrite ∧ os.GetFileTime hReference = none) :
    WINDOWS.fileIsMoreRecentlyModified os filename reference = false := by
  unfold WINDOWS.fileIsMoreRecentlyModified
  rcases h with h | h | ⟨hFile, hReference, ftWrite, h1, h2, h3, _⟩
  · simp [h]
  · rw [h]
    cases os.CreateFile filename <;> rfl
  · simp [h1, h2, h3, WINDOWS.CompareFileTime]

/-- C4, at concrete inputs: the source `foo.cpp` opens and the artifact
`missing.o` does not; `foo.cpp` and `foo.o` open and the time of `foo.o` cannot
be read. -/
theorem windows_unopened_file_is_not_more_recent_witness :
    WINDOWS.fileIsMoreRecentlyModified Example.missingArtifact "foo.cpp".toList
        "missing.o".toList = false ∧
      WINDOWS.fileIsMoreRecentlyModified Example.unreadableArtifactTime "foo.cpp".toList
        "foo.o".toList = false :=
  ⟨windows_unopened_file_is_not_more_recent Example.missingArtifact "foo.cpp".toList
      "missing.o".toList (Or.inr (Or.inl (by decide))),
    windows_unopened_file_is_not_more_recent Example.unreadableArtifactTime "foo.cpp".toList
      "foo.o".toList
      (Or.inr (Or.inr ⟨1, 2, ⟨100, 0⟩, by decide, by decide, rfl, rfl⟩))⟩

/-- C5 as stated fails: with source and artifact both modified at time 5 the
artifact's time is less than or equal to the source's, and the UNIX
`fileIsMoreRecentlyModified source artifact` is false. -/
theorem unix_equal_times_not_stale :
    ¬ ∀ (stat : CStr → Option Int) (source artifact : CStr) (s a : Int),
        stat source = some s → stat artifact = some a →
        (UNIX.fileIsMoreRecentlyModified stat source artifact = true ↔ a ≤ s) := by
  intro h
  have := h Example.equalTimes "foo.cpp".toList "foo.o".toList 5 5 (by decide) (by decide)
  revert this
  decide

/-- C5, amended: when both files can be stat'ed, the UNIX
`fileIsMoreRecentlyModified source artifact` is true exactly when the artifact's
modification time is strictly less than the source's. -/
theorem unix_stale_iff_source_strictly_newer (stat : CStr → Option Int) (source artifact : CStr)
    (s a : Int) (hs : stat source = some s) (ha : stat artifact = some a) :
    UNIX.fileIsMoreRecentlyModified stat source artifact = true ↔ a < s := by
  simp [UNIX.fileIsMoreRecentlyModified, hs, ha]

/-- C5, amended, at a concrete input: `bar.cpp` modified at 7 against `foo.o`
modified at 5. -/
theorem unix_stale_iff_source_strictly_newer_witness :
    UNIX.fileIsMoreRecentlyModified Example.equalTimes "bar.cpp".toList "foo.o".toList = true ↔
      (5 : Int) < 7 :=
  unix_stale_iff_source_strictly_newer Example.equalTimes "bar.cpp".toList "foo.o".toList 7 5
    (by decide) (by decide)

/-! ### The command checksum -/

/-- A string compared with an extension of itself over its own length: equal. -/
theorem strncmp_self_append (w rest : CStr) : strncmp w (w ++ rest) w.length = 0 := by
  induction w with
  | nil => cases rest <;> simp [strncmp]
  | cons a as ih => simpa [strncmp] using ih

/-- The character behind a prefix. -/
theorem charAt_append_cons (w : CStr) (c : Char) (rest : CStr) :
    charAt (w ++ c :: rest) w.length = c := by
  induction w with
  | nil => simp [charAt]
  | cons a as ih => simpa [charAt] using ih

/-- A C string whose first character is `'.'` and whose second is the
terminator is the string `"."`; with `'/'` second and the terminator third it is
`"./"`. -/
theorem currentDirMarker_of_charAt (filePath : CStr) (hstr : Char.ofNat 0 ∉ filePath)
    (h : (charAt filePath 0 = '.' ∧ charAt filePath 1 = Char.ofNat 0) ∨
      (charAt filePath 0 = '.' ∧ charAt filePath 1 = '/' ∧ charAt filePath 2 = Char.ofNat 0)) :
    filePath = ['.'] ∨ filePath = ['.', '/'] := by
  match filePath, hstr, h with
  | [], _, h => simp [charAt] at h
  | [a], _, h =>
    simp [charAt] at h
    simp [h]
  | [a, b], hstr, h =>
    simp [charAt] at h hstr
    rcases h with h | h
    · exact absurd h.2.symm hstr.2
    · simp [h.1, h.2]
  | a :: b :: c :: rest, hstr, h =>
    simp [charAt] at h hstr
    rcases h with h | h
    · exact absurd h.2.symm hstr.2.1
    · exact absurd h.2.2.symm hstr.2.2.1

/-- C7: for a relative path whose resolved form is `W ++ "/" ++ rest`, `W` the
resolved working directory, the UNIX `makeAbsoluteOrRelativeToWorkingDir` leaves
exactly `rest` in a buffer that holds it, so that `W ++ "/" ++ output` is the
resolved form.  `hcur` records that `"./"` and `"."` resolve alike. -/
theorem makeAbsoluteOrRelative_inside_working_dir (realpath : CStr → Option CStr)
    (filePath W rest : CStr) (bufferSize : Nat)
    (hstr : Char.ofNat 0 ∉ filePath)
    (hrel : charAt filePath 0 ≠ '/')
    (hcur : realpath ['.', '/'] = realpath ['.'])
    (hW : realpath ['.'] = some W)
    (hA : realpath filePath = some (W ++ ['/'] ++ rest))
    (hfit : rest.length < bufferSize) :
    UNIX.makeAbsoluteOrRelativeToWorkingDir realpath filePath bufferSize = rest ∧
      W ++ ['/'] ++ UNIX.makeAbsoluteOrRelativeToWorkingDir realpath filePath bufferSize
        = W ++ ['/'] ++ rest := by
  have hlen : W ≠ W ++ ['/'] ++ rest := by
    intro h
    have := congrArg List.length h
    simp at this
  have hnot : ¬ (charAt filePath 0 = '/' ∨
      (charAt filePath 0 = '.' ∧ charAt filePath 1 = Char.ofNat 0) ∨
      (charAt filePath 0 = '.' ∧ charAt filePath 1 = '/' ∧ charAt filePath 2 = Char.ofNat 0)) := by
    rintro (h | h)
    · exact hrel h
    · rcases currentDirMarker_of_charAt filePath hstr h with h | h
      · rw [h, hW] at hA
        exact hlen (Option.some.inj hA)
      · rw [h, hcur, hW] at hA
        exact hlen (Option.some.inj hA)
  have hout : UNIX.makeAbsoluteOrRelativeToWorkingDir realpath filePath bufferSize = rest := by
    unfold UNIX.makeAbsoluteOrRelativeToWorkingDir
    rw [if_neg hnot, hW, hA]
    simp only [List.append_assoc, List.singleton_append]
    rw [if_pos (strncmp_self_append W ('/' :: rest)), charAt_append_cons, if_pos rfl]
    have hdrop : List.drop (W.length + 1) (W ++ '/' :: rest) = rest := by
      rw [List.drop_append_eq_append_drop]
      simp
    rw [hdrop]
    exact List.take_of_length_le (by omega)
  exact ⟨hout, by rw [hout]⟩

/-- C7, at a concrete input: working directory `/home/user/proj`, path
`src/Main.cake`. -/
theorem makeAbsoluteOrRelative_inside_working_dir_witness :
    UNIX.makeAbsoluteOrRelativeToWorkingDir Example.siblingRealpath "src/Main.cake".toList 4096
        = "src/Main.cake".toList ∧
      "/home/user/proj".toList ++ ['/'] ++
        UNIX.makeAbsoluteOrRelativeToWorkingDir Example.siblingRealpath "src/Main.cake".toList 4096
        = "/home/user/proj".toList ++ ['/'] ++ "src/Main.cake".toList :=
  makeAbsoluteOrRelative_inside_working_dir Example.siblingRealpath "src/Main.cake".toList
    "/home/user/proj".toList "src/Main.cake".toList 4096 (by decide) (by decide) (by decide)
    (by decide) (by decide) (by decide)

/-- The UNIX branch falls back to the path as given when the working directory
or the path does not resolve. -/
theorem unix_unresolved_path_kept (realpath : CStr → Option CStr) (filePath : CStr)
    (bufferSize : Nat) (h : realpath ['.'] = none ∨ realpath filePath = none) :
    UNIX.makeAbsoluteOrRelativeToWorkingDir realpath filePath bufferSize
      = SafeSnprinf bufferSize filePath := by
  unfold UNIX.makeAbsoluteOrRelativeToWorkingDir
  split
  · rfl
  · rcases h with h | h
    · rw [h]
    · rw [h]
      cases realpath ['.'] <;> rfl

/-- The WINDOWS branch falls back to the path as given when a path without a
drive does not resolve. -/
theorem windows_unresolved_path_kept (os : WINDOWS.System) (MAX_PATH_LENGTH : Nat)
    (filePath : CStr) (bufferSize : Nat)
    (hdrive : charAt (os.splitpath filePath).drive 0 = Char.ofNat 0)
    (h : os.fullpath filePath MAX_PATH_LENGTH = none) :
    WINDOWS.makeAbsoluteOrRelativeToWorkingDir os MAX_PATH_LENGTH filePath bufferSize
      = SafeSnprinf bufferSize filePath := by
  simp [WINDOWS.makeAbsoluteOrRelativeToWorkingDir, WINDOWS.makeAbsolutePath_Allocated, hdrive, h]

/-- C8 (the code at the failing input): in the WINDOWS branch the result of
`GetCurrentDirectory` is not checked.  When it stores nothing and
`..\..\foo.cake` resolves to `C:\w\foo.cake`, the function writes the resolved
path, not the path it was given. -/
theorem windows_working_dir_failure_not_handled :
    Example.unreadableWorkingDir.GetCurrentDirectory 1024 = none ∧
    WINDOWS.makeAbsoluteOrRelativeToWorkingDir Example.unreadableWorkingDir 1024
        "..\\..\\foo.cake".toList 4096 = "C:\\w\\foo.cake".toList ∧
    WINDOWS.makeAbsoluteOrRelativeToWorkingDir Example.unreadableWorkingDir 1024
        "..\\..\\foo.cake".toList 4096 ≠ SafeSnprinf 4096 "..\\..\\foo.cake".toList := by
  decide

/-! ### Artifact names -/

/-- A prefix all of whose elements pass the test, followed by one that fails it. -/
theorem takeWhile_append_cons_of_neg {α : Type} (p : α → Bool) (l : List α) (a : α)
    (r : List α) (hl : ∀ x ∈ l, p x = true) (ha : p a = false) :
    (l ++ a :: r).takeWhile p = l := by
  induction l with
  | nil => simp [List.takeWhile, ha]
  | cons x xs ih =>
    have hx : p x = true := hl x (List.mem_cons_self x xs)
    simp [List.takeWhile, hx, ih (fun y hy => hl y (List.mem_cons_of_mem x hy))]

/-- POSIX `basename` of a path that ends in a non-empty name without a slash,
behind a directory part: the name. -/
theorem basename_directory_slash_name (dir name : CStr) (hne : name ≠ [])
    (hslash : '/' ∉ name) : UNIX.basename (dir ++ '/' :: name) = name := by
  have hlast : ∀ hl : dir ++ '/' :: name ≠ [], (dir ++ '/' :: name).getLast hl ≠ '/' := by
    intro hl
    have : (dir ++ '/' :: name).getLast hl = name.getLast hne := by
      rw [List.getLast_append_of_ne_nil (List.cons_ne_nil _ _), List.getLast_cons hne]
    rw [this]
    intro h
    exact hslash (h ▸ List.getLast_mem hne)
  have hkeep : (dir ++ '/' :: name).rdropWhile (fun c => c == '/') = dir ++ '/' :: name := by
    rw [List.rdropWhile_eq_self_iff]
    intro hl
    simpa using hlast hl
  have htake : (dir ++ '/' :: name).rtakeWhile (fun c => c != '/') = name := by
    unfold List.rtakeWhile
    rw [List.reverse_append, List.reverse_cons, List.append_assoc, List.singleton_append,
      takeWhile_append_cons_of_neg _ _ _ _ _ (by simp), List.reverse_reverse]
    intro x hx
    have : x ≠ '/' := fun h => hslash (h ▸ List.mem_reverse.mp hx)
    simpa using this
  unfold UNIX.basename
  simp only [hkeep, htake]
  simp

/-- C9: when the filename component `f` that `getFilenameFromPath` stores for
the source filename is a non-empty C string, `outputFilenameFromSourceFilename`
returns true and leaves `outputDir/f`, or `outputDir/f.addExtension`, cut to
`bufferSize - 1` characters.  In the UNIX branch a directory part in front of a
file name does not reach `f`: the name `dir/name` has the component of `name`
alone. -/
theorem outputFilename_from_filename_component (getFilenameFromPath : CStr → Nat → CStr)
    (MAX_NAME_LENGTH : Nat) (outputDir sourceFilename : CStr) (addExtension : Option CStr)
    (bufferIn : CStr) (bufferSize : Nat) (f : CStr)
    (hf : getFilenameFromPath sourceFilename MAX_NAME_LENGTH = f)
    (hne : f ≠ []) (hstr : Char.ofNat 0 ∉ f) :
    outputFilenameFromSourceFilename getFilenameFromPath MAX_NAME_LENGTH outputDir
        sourceFilename addExtension bufferIn bufferSize
      = (true, List.take (bufferSize - 1)
          (match addExtension with
            | none => outputDir ++ ['/'] ++ f
            | some ext => outputDir ++ ['/'] ++ f ++ ['.'] ++ ext)) ∧
    (outputFilenameFromSourceFilename getFilenameFromPath MAX_NAME_LENGTH outputDir
        sourceFilename addExtension bufferIn bufferSize).2.length ≤ bufferSize - 1 ∧
    ∀ dir name : CStr, name ≠ [] → '/' ∉ name →
      UNIX.getFilenameFromPath (dir ++ ['/'] ++ name) MAX_NAME_LENGTH
        = List.take (MAX_NAME_LENGTH - 1) name ∧
      outputFilenameFromSourceFilename UNIX.getFilenameFromPath MAX_NAME_LENGTH outputDir
          (dir ++ ['/'] ++ name) addExtension bufferIn bufferSize
        = outputFilenameFromSourceFilename UNIX.getFilenameFromPath MAX_NAME_LENGTH outputDir
          name addExtension bufferIn bufferSize := by
  have hfirst : charAt f 0 ≠ Char.ofNat 0 := by
    cases f with
    | nil => exact absurd rfl hne
    | cons c cs =>
      intro h
      apply hstr
      simp [charAt] at h
      simp [h]
  have hout : outputFilenameFromSourceFilename getFilenameFromPath MAX_NAME_LENGTH outputDir
        sourceFilename addExtension bufferIn bufferSize
      = (true, List.take (bufferSize - 1)
          (match addExtension with
            | none => outputDir ++ ['/'] ++ f
            | some ext => outputDir ++ ['/'] ++ f ++ ['.'] ++ ext)) := by
    unfold outputFilenameFromSourceFilename
    simp only [hf, if_neg hfirst]
    cases addExtension <;> rfl
  refine ⟨hout, ?_, ?_⟩
  · rw [hout]
    exact List.length_take_le _ _
  · intro dir name hname hslash
    have h1 := basename_directory_slash_name dir name hname hslash
    have h2 := basename_directory_slash_name [] name hname hslash
    have h3 : UNIX.basename name = name := by
      have hn : UNIX.basename ('/' :: name) = name := by simpa using h2
      cases name with
      | nil => exact absurd rfl hname
      | cons c cs =>
        have hlast : (c :: cs).rdropWhile (fun c => c == '/') = c :: cs := by
          rw [List.rdropWhile_eq_self_iff]
          intro hl h
          have hmem := List.getLast_mem hl
          rw [beq_iff_eq.mp h] at hmem
          exact hslash hmem
        have htake : (c :: cs).rtakeWhile (fun c => c != '/') = c :: cs := by
          rw [List.rtakeWhile_eq_self_iff]
          intro x hx
          have : x ≠ '/' := fun h => hslash (h ▸ hx)
          simpa using this
        unfold UNIX.basename
        simp only [hlast, htake]
        simp
    simp only [outputFilenameFromSourceFilename, UNIX.getFilenameFromPath, SafeSnprinf,
      List.append_assoc, List.singleton_append, h1, h3, and_self]

/-- C9, at a concrete input: `src/Main.cake` with extension `cpp` into `cache`. -/
theorem outputFilename_from_filename_component_witness :
    outputFilenameFromSourceFilename UNIX.getFilenameFromPath 64 "cache".toList
        "src/Main.cake".toList (some "cpp".toList) [] 4096
      = (true, List.take (4096 - 1)
          (match some "cpp".toList with
            | none => "cache".toList ++ ['/'] ++ "Main.cake".toList
            | some ext => "cache".toList ++ ['/'] ++ "Main.cake".toList ++ ['.'] ++ ext)) ∧
    (outputFilenameFromSourceFilename UNIX.getFilenameFromPath 64 "cache".toList
        "src/Main.cake".toList (some "cpp".toList) [] 4096).2.length ≤ 4096 - 1 ∧
    ∀ dir name : CStr, name ≠ [] → '/' ∉ name →
      UNIX.getFilenameFromPath (dir ++ ['/'] ++ name) 64 = List.take (64 - 1) name ∧
      outputFilenameFromSourceFilename UNIX.getFilenameFromPath 64 "cache".toList
          (dir ++ ['/'] ++ name) (some "cpp".toList) [] 4096
        = outputFilenameFromSourceFilename UNIX.getFilenameFromPath 64 "cache".toList
          name (some "cpp".toList) [] 4096 :=
  outputFilename_from_filename_component UNIX.getFilenameFromPath 64 "cache".toList
    "src/Main.cake".toList (some "cpp".toList) [] 4096 "Main.cake".toList (by decide)
    (by decide) (by decide)

/-! ### The command line -/

/-- An option found by the inner loop is an entry of the table whose handle is
the argument. -/
theorem findOption_mem (argument : CStr) (table : List CommandLineOption) (toggle : Toggle)
    (h : findOption argument table = some toggle) :
    ∃ option ∈ table, argument = option.handle ∧ option.toggleOnOut = toggle := by
  induction table with
  | nil => simp [findOption] at h
  | cons option rest ih =>
    rw [findOption] at h
    split_ifs at h with heq
    · exact ⟨option, List.mem_cons_self _ _, heq, Option.some.inj h⟩
    · obtain ⟨o, ho, h1, h2⟩ := ih h
      exact ⟨o, List.mem_cons_of_mem _ ho, h1, h2⟩

/-- The option table gives the flag `ignoreCachedFiles` to `--ignore-cache` and
to no other argument. -/
theorem findOption_ignoreCachedFiles (argument : CStr) (toggle : Toggle)
    (h : findOption argument options = some toggle) :
    toggle = Toggle.ignoreCachedFiles ↔ argument = "--ignore-cache".toList := by
  unfold options at h
  rw [findOption] at h
  split_ifs at h with heq
  · exact ⟨fun _ => heq, fun _ => (Option.some.inj h).symm⟩
  · obtain ⟨o, ho, _, h2⟩ := findOption_mem _ _ _ h
    have hrest : ∀ o ∈ options.tail, o.toggleOnOut ≠ Toggle.ignoreCachedFiles := by decide
    have hne : toggle ≠ Toggle.ignoreCachedFiles := h2 ▸ hrest o ho
    exact ⟨fun ht => absurd ht hne, fun ha => absurd ha heq⟩

/-- Once the files have started, the loop ends normally only if no further
argument begins with `-`, and then the flags are unchanged. -/
theorem argumentLoop_after_files (numArguments : Nat) (remaining : List CStr) :
    ∀ (i startFiles : Nat) (toggles : Toggle → Bool) (result : Nat × (Toggle → Bool)),
      startFiles < numArguments →
      argumentLoop numArguments i remaining startFiles toggles = Except.ok result →
      result.2 = toggles := by
  induction remaining with
  | nil =>
    intro i startFiles toggles result _ h
    simp only [argumentLoop, Except.ok.injEq] at h
    rw [← h]
  | cons argument remaining ih =>
    intro i startFiles toggles result hlt h
    rw [argumentLoop] at h
    split_ifs at h with h1 h2 h3
    · omega
    · exact ih _ _ _ _ hlt h

/-- Before the files have started, the loop ends normally with the flag
`ignoreCachedFiles` set exactly if it was set before or `--ignore-cache` is
among the arguments that precede the first file. -/
theorem argumentLoop_ignoreCachedFiles (numArguments : Nat) (remaining : List CStr) :
    ∀ (i : Nat) (toggles : Toggle → Bool) (result : Nat × (Toggle → Bool)),
      i + remaining.length = numArguments →
      argumentLoop numArguments i remaining numArguments toggles = Except.ok result →
      result.2 Toggle.ignoreCachedFiles =
        (toggles Toggle.ignoreCachedFiles ||
          decide ("--ignore-cache".toList ∈
            remaining.takeWhile (fun argument => decide (charAt argument 0 = '-')))) := by
  induction remaining with
  | nil =>
    intro i toggles result _ h
    simp only [argumentLoop, Except.ok.injEq] at h
    simp [← h]
  | cons argument remaining ih =>
    intro i toggles result hlen h
    rw [argumentLoop] at h
    split_ifs at h with h1 h2 h3
    · have hi : i < numArguments := by
        simp only [List.length_cons] at hlen
        omega
      have hkeep := argumentLoop_after_files numArguments remaining (i + 1) i toggles result hi h
      have hdash : ¬ charAt argument 0 = '-' := h2
      simp [List.takeWhile, hdash, hkeep]
    · exact absurd rfl h3
    · have hdash : charAt argument 0 = '-' := not_not.mp h2
      cases hfind : findOption argument options with
      | none => simp [hfind] at h
      | some toggle =>
        simp only [hfind] at h
        have hrec := ih (i + 1) _ result (by simp only [List.length_cons] at hlen; omega) h
        have hiff := findOption_ignoreCachedFiles argument toggle hfind
        rw [hrec, List.takeWhile_cons, decide_eq_true hdash, if_pos rfl]
        by_cases harg : argument = "--ignore-cache".toList
        · have ht : toggle = Toggle.ignoreCachedFiles := hiff.mpr harg
          rw [ht, Function.update_same, harg]
          simp only [List.mem_cons_self, decide_True, Bool.true_or, Bool.or_true]
        · have ht : toggle ≠ Toggle.ignoreCachedFiles := fun h => harg (hiff.mp h)
          have hne : "--ignore-cache".toList ≠ argument := fun h => harg h.symm
          rw [Function.update_noteq (Ne.symm ht)]
          congr 1
          apply decide_eq_decide.mpr
          rw [List.mem_cons]
          exact ⟨Or.inr, fun h => h.resolve_left hne⟩

/-- C10: when the command line parses, `main` hands to the evaluation of the
files the initialised environment in which `useCachedFiles` is false if
`--ignore-cache` is among the options and is what `moduleManagerInitialize` left
otherwise. -/
theorem main_ignore_cache (log : Toggle → Bool) (initialized : EvaluatorEnvironment)
    (evaluateAndBuild : EvaluatorEnvironment → List CStr → Nat) (arguments : List CStr)
    (toggles : Toggle → Bool) (filesToEvaluate : List CStr)
    (h : parseArguments log arguments = Except.ok (toggles, filesToEvaluate)) :
    ∃ environment : EvaluatorEnvironment,
      main log initialized evaluateAndBuild arguments
        = evaluateAndBuild environment filesToEvaluate ∧
      environment.useCachedFiles =
        (if "--ignore-cache".toList ∈ optionArguments arguments then false
          else initialized.useCachedFiles) := by
  refine ⟨setOptionsAfterInitialization toggles initialized, ?_, ?_⟩
  · simp [main, h]
  · have hflag : toggles Toggle.ignoreCachedFiles =
        decide ("--ignore-cache".toList ∈ optionArguments arguments) := by
      unfold parseArguments at h
      simp only at h
      split_ifs at h with h1
      split at h
      · exact absurd h (by simp)
      · rename_i startFiles finalToggles hloop
        split_ifs at h with h2
        simp only [Except.ok.injEq, Prod.mk.injEq] at h
        rw [← h.1]
        cases arguments with
        | nil =>
          simp only [List.drop_nil, argumentLoop, Except.ok.injEq, Prod.mk.injEq] at hloop
          simp [← hloop.2, optionArguments, initialToggles]
        | cons program rest =>
          have := argumentLoop_ignoreCachedFiles (program :: rest).length rest 1
            (initialToggles log) (startFiles, finalToggles)
            (by simp only [List.length_cons]; omega) (by simpa using hloop)
          simpa [optionArguments, initialToggles] using this
    have huse : (setOptionsAfterInitialization toggles initialized).useCachedFiles =
        (if toggles Toggle.ignoreCachedFiles then false else initialized.useCachedFiles) := by
      unfold setOptionsAfterInitialization
      split_ifs <;> rfl
    rw [huse, hflag]
    simp

/-- C10, at concrete inputs: `cakelisp --ignore-cache a.cake`. -/
theorem main_ignore_cache_witness :
    ∃ environment : EvaluatorEnvironment,
      main (fun _ => false) ⟨false, true⟩ (fun _ _ => 0)
          ["cakelisp".toList, "--ignore-cache".toList, "a.cake".toList]
        = (fun _ _ => 0) environment ["a.cake".toList] ∧
      environment.useCachedFiles =
        (if "--ignore-cache".toList ∈
            optionArguments ["cakelisp".toList, "--ignore-cache".toList, "a.cake".toList]
          then false else (⟨false, true⟩ : EvaluatorEnvironment).useCachedFiles) :=
  main_ignore_cache (fun _ => false) ⟨false, true⟩ (fun _ _ => 0)
    ["cakelisp".toList, "--ignore-cache".toList, "a.cake".toList]
    (Function.update (initialToggles (fun _ => false)) Toggle.ignoreCachedFiles true)
    ["a.cake".toList] rfl

/-! ### Options behind files -/

/-- Once the files have started, an argument that begins with `-` among the
remaining ones makes the loop return from `main` with exit code 1. -/
theorem argumentLoop_option_after_files (numArguments : Nat) (remaining : List CStr) :
    ∀ (i startFiles : Nat) (toggles : Toggle → Bool),
      startFiles < numArguments →
      (∃ argument ∈ remaining, charAt argument 0 = '-') →
      argumentLoop numArguments i remaining startFiles toggles = Except.error 1 := by
  induction remaining with
  | nil =>
    intro i startFiles toggles _ h
    obtain ⟨argument, hmem, _⟩ := h
    exact absurd hmem (List.not_mem_nil _)
  | cons argument remaining ih =>
    intro i startFiles toggles hlt h
    obtain ⟨later, hmem, hdash⟩ := h
    rw [argumentLoop]
    split_ifs with h1 h2 h3
    · rfl
    · omega
    · apply ih _ _ _ hlt
      rcases List.mem_cons.mp hmem with heq | hin
      · exact absurd (heq ▸ hdash) h2
      · exact ⟨later, hin, hdash⟩
    · rfl

/-- A file followed, anywhere behind it, by an argument that begins with `-`
makes the loop return from `main` with exit code 1, whatever precedes the
file. -/
theorem argumentLoop_file_then_option (numArguments : Nat) (file : CStr) (tail : List CStr)
    (hfile : charAt file 0 ≠ '-') (htail : ∃ argument ∈ tail, charAt argument 0 = '-')
    (before : List CStr) :
    ∀ (i startFiles : Nat) (toggles : Toggle → Bool),
      i + (before ++ file :: tail).length = numArguments →
      startFiles ≤ numArguments →
      argumentLoop numArguments i (before ++ file :: tail) startFiles toggles
        = Except.error 1 := by
  induction before with
  | nil =>
    intro i startFiles toggles hlen hle
    simp only [List.nil_append, List.length_cons] at hlen ⊢
    rw [argumentLoop]
    split_ifs with h1 h2
    · rfl
    · exact argumentLoop_option_after_files numArguments tail _ _ _ (by omega) htail
    · exact argumentLoop_option_after_files numArguments tail _ _ _ (by omega) htail
  | cons argument before ih =>
    intro i startFiles toggles hlen hle
    simp only [List.cons_append, List.length_cons] at hlen ⊢
    rw [argumentLoop]
    split_ifs with h1 h2 h3 h4
    · rfl
    · exact ih _ _ _ (by omega) (by omega)
    · exact ih _ _ _ (by omega) hle
    · rfl
    · cases findOption argument options with
      | none => rfl
      | some toggle => exact ih _ _ _ (by omega) hle

/-- C11: when, behind the program name, an argument that begins with `-` comes
after an argument that does not, `main` returns from the argument checks with
exit code 1: the module manager is not set up and no file is evaluated. -/
theorem main_rejects_option_after_file (log : Toggle → Bool) (initialized : EvaluatorEnvironment)
    (evaluateAndBuild : EvaluatorEnvironment → List CStr → Nat)
    (program : CStr) (before : List CStr) (file : CStr) (between : List CStr)
    (later : CStr) (rest : List CStr)
    (hfile : charAt file 0 ≠ '-') (hlater : charAt later 0 = '-') :
    parseArguments log (program :: (before ++ file :: (between ++ later :: rest)))
        = Except.error 1 ∧
      main log initialized evaluateAndBuild
        (program :: (before ++ file :: (between ++ later :: rest))) = 1 := by
  have hloop := argumentLoop_file_then_option
    (program :: (before ++ file :: (between ++ later :: rest))).length file
    (between ++ later :: rest) hfile ⟨later, by simp, hlater⟩ before 1
    (program :: (before ++ file :: (between ++ later :: rest))).length (initialToggles log)
    (by simp only [List.length_cons]; omega) (Nat.le_refl _)
  have hparse : parseArguments log (program :: (before ++ file :: (between ++ later :: rest)))
      = Except.error 1 := by
    unfold parseArguments
    have hne : (program :: (before ++ file :: (between ++ later :: rest))).length ≠ 1 := by
      simp only [List.length_cons, List.length_append]
      omega
    simp only [if_neg hne, List.drop_succ_cons, List.drop_zero, hloop]
  exact ⟨hparse, by simp only [main, hparse]⟩

/-- C11, at a concrete input: `cakelisp a.cake --ignore-cache`, with an
evaluation that would end with exit code 0. -/
theorem main_rejects_option_after_file_witness :
    parseArguments (fun _ => false)
        ("cakelisp".toList :: ([] ++ "a.cake".toList :: ([] ++ "--ignore-cache".toList :: [])))
        = Except.error 1 ∧
      main (fun _ => false) ⟨false, true⟩ (fun _ _ => 0)
        ("cakelisp".toList :: ([] ++ "a.cake".toList :: ([] ++ "--ignore-cache".toList :: [])))
        = 1 :=
  main_rejects_option_after_file (fun _ => false) ⟨false, true⟩ (fun _ _ => 0)
    "cakelisp".toList [] "a.cake".toList [] "--ignore-cache".toList [] (by decide) (by decide)

/-! ### The WINDOWS comparison of last-write times -/

/-- C12 (the code at the failing input): in the WINDOWS branch both calls of
`GetFileTime` read the handle of `filename`, so when both files open and the
time of `filename` can be read the function compares that time with itself and
returns false, whatever the last-write time of `reference`. -/
theorem windows_compares_file_with_itself (os : WINDOWS.System) (filename reference : CStr)
    (hFile hReference : Nat) (ftWrite : WINDOWS.FILETIME)
    (hf : os.CreateFile filename = some hFile)
    (hr : os.CreateFile reference = some hReference)
    (ht : os.GetFileTime hFile = some ftWrite) :
    WINDOWS.fileIsMoreRecentlyModified os filename reference = false := by
  simp [WINDOWS.fileIsMoreRecentlyModified, hf, hr, ht, WINDOWS.CompareFileTime]

/-- C12, at a concrete input: `foo.cpp` written at 200 and `foo.o` at 100, both
readable.  The first time is strictly later, the UNIX branch answers true for
these times, the WINDOWS branch answers false. -/
theorem windows_compares_file_with_itself_witness :
    WINDOWS.fileIsMoreRecentlyModified Example.newerSource "foo.cpp".toList "foo.o".toList
        = false ∧
      Example.newerSource.GetFileTime 1 = some ⟨200, 0⟩ ∧
      Example.newerSource.GetFileTime 2 = some ⟨100, 0⟩ ∧
      WINDOWS.CompareFileTime ⟨200, 0⟩ ⟨100, 0⟩ = 1 ∧
      UNIX.fileIsMoreRecentlyModified Example.newerSourceStat "foo.cpp".toList "foo.o".toList
        = true :=
  ⟨windows_compares_file_with_itself Example.newerSource "foo.cpp".toList "foo.o".toList 1 2
      ⟨200, 0⟩ (by decide) (by decide) rfl,
    rfl, rfl, by decide, by decide⟩

end Cakelisp
